import Mathlib

/-!
Verification of the BinarySymphony core: byte-to-note mapping, waveform
synthesis, MIDI export and batch processing, shallowly embedded from
`src/binarysymphony/core.py` and `src/binarysymphony/midi_export.py`.

Decimal constants from the source are embedded as exact rationals; the
per-note sine samples are real numbers.  Python `int()` truncation toward
zero is modelled explicitly.  File reading and the export codecs are
external collaborators and enter the batch driver as explicit fallible
parameters.
-/

namespace BinarySymphony

/-- `BinaryMapper.NOTES`: pitch-class frequencies in Hz (A4 = 440 Hz),
as the ordered association list of the Python dict. -/
def NOTES : List (String × ℚ) :=
  [("C", 26163/100), ("C#", 27718/100), ("D", 29366/100), ("D#", 31113/100),
   ("E", 32963/100), ("F", 34923/100), ("F#", 36999/100), ("G", 392),
   ("G#", 4153/10), ("A", 440), ("A#", 46616/100), ("B", 49388/100)]

/-- `BinaryMapper.SCALES`: musical scales as interval lists from the root. -/
def SCALES : List (String × List ℕ) :=
  [("chromatic", [0, 1, 2, 3, 4, 5, 6, 7, 8, 9, 10, 11]),
   ("major", [0, 2, 4, 5, 7, 9, 11]),
   ("minor", [0, 2, 3, 5, 7, 8, 10]),
   ("pentatonic", [0, 2, 4, 7, 9]),
   ("blues", [0, 3, 5, 6, 7, 10]),
   ("dorian", [0, 2, 3, 5, 7, 9, 10]),
   ("phrygian", [0, 1, 3, 5, 7, 8, 10])]

/-- `list(BinaryMapper.NOTES.keys())`: the note names in dict order. -/
def noteNames : List String := NOTES.map Prod.fst

/-- The `BinaryMapper` object: it stores the mode and scale strings. -/
structure BinaryMapper where
  mode : String
  scale : String

/-- `BinaryMapper.__init__`: stores mode and scale, then raises `ValueError`
when the scale is not a key of `SCALES`.  The raised exception is modelled
as the `Except.error` branch. -/
def BinaryMapper.init (mode scale : String) : Except String BinaryMapper :=
  if (SCALES.lookup scale).isSome then
    Except.ok ⟨mode, scale⟩
  else
    Except.error ("Unknown scale: " ++ scale)

/-- The body of the loop in `BinaryMapper.map_bytes_to_notes` for one byte:
scale index, note index, octave, frequency from the `NOTES` dict, and the
mode-dependent duration. -/
def mapByte (mode scale : String) (b : ℕ) : ℚ × ℚ :=
  let scale_notes := (SCALES.lookup scale).getD []
  let scale_index := b % scale_notes.length
  let note_index := scale_notes.getD scale_index 0
  let octave : ℕ := 3 + (b / scale_notes.length) % 6
  let note_name := noteNames.getD note_index ""
  let freq : ℚ := ((NOTES.lookup note_name).getD 0) * (2 : ℚ) ^ ((octave : ℤ) - 4)
  let duration : ℚ :=
    if mode = "melody" then 1/2
    else if mode = "rhythm" then 1/4 + (b % 4 : ℕ) * (1/4)
    else if mode = "spectrum" then 1/10
    else 1/2
  (freq, duration)

/-- `BinaryMapper.map_bytes_to_notes`: the loop appends one
(frequency, duration) pair per byte to an initially empty list. -/
def map_bytes_to_notes (mode scale : String) (data : List ℕ) : List (ℚ × ℚ) :=
  data.foldl (fun notes b => notes ++ [mapByte mode scale b]) []

/-- Python `int(_)`: truncation toward zero, on rationals. -/
def pytruncQ (q : ℚ) : ℤ := if 0 ≤ q then ⌊q⌋ else -⌊-q⌋

/-- Python `int(_)`: truncation toward zero, on reals. -/
noncomputable def pytruncR (x : ℝ) : ℤ := if 0 ≤ x then ⌊x⌋ else -⌊-x⌋

/-- One note's samples in `BinaryMapper.generate_waveform`:
`samples = int(duration * sample_rate)` points
`0.5 * sin(2π·f·t)` at `t = np.linspace(0, duration, samples, False)`,
whose `i`-th entry is `duration * i / samples`. -/
noncomputable def noteSegment (f d : ℚ) (rate : ℕ) : List ℝ :=
  let samples := (pytruncQ (d * rate)).toNat
  (List.range samples).map fun (i : ℕ) =>
    (1/2 : ℝ) * Real.sin (2 * Real.pi * (f : ℝ) * ((d : ℝ) * (i : ℝ) / (samples : ℝ)))

/-- `BinaryMapper.generate_waveform`: the preallocated buffer of
`sum int(duration * rate)` zeros is filled slice by slice with each note's
segment, i.e. the waveform is the concatenation of the per-note segments. -/
noncomputable def generate_waveform (notes : List (ℚ × ℚ)) (rate : ℕ) : List ℝ :=
  match notes with
  | [] => []
  | (f, d) :: rest => noteSegment f d rate ++ generate_waveform rest rate

/-- A `mido.Message` as produced by `MidiExporter.notes_to_midi`:
message kind, MIDI note number, velocity, delta time. -/
structure MidiMessage where
  kind : String
  note : ℤ
  velocity : ℕ
  time : ℤ
deriving DecidableEq

/-- `freq_to_midi_note` from `MidiExporter.notes_to_midi`:
`int(69 + 12 * np.log2(freq / 440.0))`. -/
noncomputable def freq_to_midi_note (f : ℚ) : ℤ :=
  pytruncR (69 + 12 * Real.logb 2 ((f : ℝ) / 440))

/-- `MidiExporter.notes_to_midi` (the track contents; `mid.save` is I/O):
for each note a `note_on` at delta time `current_time` and a `note_off` at
delta time `int(duration * 480)`.  `current_time` starts at 0 and is reset
to 0 after every note, so every `note_on` carries delta time 0. -/
noncomputable def notes_to_midi (notes : List (ℚ × ℚ)) : List MidiMessage :=
  match notes with
  | [] => []
  | (f, d) :: rest =>
    ⟨"note_on", freq_to_midi_note f, 64, 0⟩ ::
    ⟨"note_off", freq_to_midi_note f, 64, pytruncQ (d * 480)⟩ ::
    notes_to_midi rest

/-- The spec's words for the MIDI pitch approximation: the nearest MIDI
note number, i.e. `69 + 12·log2(f/440)` rounded to the nearest integer.
Stated only to compare the code's truncation against the spec. -/
noncomputable def specNearestMidiNote (f : ℚ) : ℤ :=
  round (69 + 12 * Real.logb 2 ((f : ℝ) / 440))

/-- A per-file record of `BinaryMapper.process_batch`:
`{"input": ..., "output": ..., "status": ..., "error": ...}`. -/
structure BatchResult where
  input : String
  output : Option String
  status : String
  error : Option String
deriving DecidableEq

/-- Helper for `pathlib.Path.stem`: the prefix of the name before its last
dot, or `none` when the name has no dot. -/
def beforeLastDot : List Char → Option (List Char)
  | [] => none
  | c :: rest =>
    match beforeLastDot rest with
    | some p => some (c :: p)
    | none => if c = '.' then some [] else none

/-- `pathlib.Path(p).stem`: the final path component without its last
suffix; a lone leading dot does not start a suffix. -/
def stem (p : String) : String :=
  let base := (p.splitOn "/").getLastD p
  match beforeLastDot base.data with
  | some pre => if pre = [] then base else String.mk pre
  | none => base

/-- One iteration of the loop in `BinaryMapper.process_batch`.  The file
system read (`open`/`read`) and the format-dispatched export block
(MIDI / WAV / MP3 / spectrum codecs, external collaborators) enter as the
fallible parameters `fs` and `expo`; `Except.error` is a raised exception,
caught by the per-file `except` clause.  An empty read is recorded as an
error without exporting; on a successful export the record gets the output
path and status `"success"`. -/
def processOne (fs : String → Except String (List ℕ))
    (expo : String → String → List (ℚ × ℚ) → Except String Unit)
    (mode scale outdir fmt input : String) : BatchResult :=
  let outPath := outdir ++ "/" ++ stem input ++ "_binarysymphony." ++ fmt
  match fs input with
  | Except.error e => ⟨input, none, "error", some e⟩
  | Except.ok data =>
    if data.isEmpty then ⟨input, none, "error", some "File is empty"⟩
    else
      match expo fmt outPath (map_bytes_to_notes mode scale data) with
      | Except.error e => ⟨input, none, "error", some e⟩
      | Except.ok _ => ⟨input, some outPath, "success", none⟩

/-- `BinaryMapper.process_batch`: the loop appends exactly one result
record per input file (the empty-file branch appends and `continue`s, all
other branches fall through to the shared append). -/
def process_batch (fs : String → Except String (List ℕ))
    (expo : String → String → List (ℚ × ℚ) → Except String Unit)
    (mode scale : String) (inputs : List String)
    (outdir fmt : String) : List BatchResult :=
  inputs.map (processOne fs expo mode scale outdir fmt)

/-- The spec's fixed 12-entry pitch-class table `base_frequency`,
indexed by semitone offset from C.  Stated to compare the code's
name-keyed dict lookup against the spec's table. -/
def pitchClassFreq : ℕ → ℚ
  | 0 => 26163/100
  | 1 => 27718/100
  | 2 => 29366/100
  | 3 => 31113/100
  | 4 => 32963/100
  | 5 => 34923/100
  | 6 => 36999/100
  | 7 => 392
  | 8 => 4153/10
  | 9 => 440
  | 10 => 46616/100
  | 11 => 49388/100
  | _ => 0

/-- The seven scale names of `SCALES`, in order. -/
def scaleNames : List String :=
  ["chromatic", "major", "minor", "pentatonic", "blues", "dorian", "phrygian"]

theorem lookup_isSome_iff {β : Type} (al : List (String × β)) (k : String) :
    (al.lookup k).isSome = true ↔ k ∈ al.map Prod.fst := by
  induction al with
  | nil => simp [List.lookup]
  | cons hd tl ih =>
    obtain ⟨a, b⟩ := hd
    by_cases h : k = a
    · subst h; simp [List.lookup]
    · have hba : (k == a) = false := beq_eq_false_iff_ne.mpr h
      simp [List.lookup, hba, h, ih]

theorem lookup_mem_values {β : Type} (al : List (String × β)) (k : String) (v : β)
    (h : al.lookup k = some v) : v ∈ al.map Prod.snd := by
  induction al with
  | nil => simp [List.lookup] at h
  | cons hd tl ih =>
    obtain ⟨a, b⟩ := hd
    by_cases hk : k = a
    · subst hk; simp [List.lookup] at h; simp [h]
    · have hba : (k == a) = false := beq_eq_false_iff_ne.mpr hk
      simp [List.lookup, hba] at h
      simpa using Or.inr (by simpa using ih h)

theorem foldl_append_map {α β : Type} (f : α → β) :
    ∀ (data : List α) (acc : List β),
      data.foldl (fun notes b => notes ++ [f b]) acc = acc ++ data.map f
  | [], acc => by simp
  | b :: rest, acc => by
    simp only [List.foldl_cons, List.map_cons, foldl_append_map f rest (acc ++ [f b])]
    simp

theorem map_bytes_to_notes_eq_map (mode scale : String) (data : List ℕ) :
    map_bytes_to_notes mode scale data = data.map (mapByte mode scale) := by
  simpa using foldl_append_map (mapByte mode scale) data []

theorem map_bytes_to_notes_getElem? (mode scale : String) (data : List ℕ) (i : ℕ) :
    (map_bytes_to_notes mode scale data)[i]? = data[i]?.map (mapByte mode scale) := by
  rw [map_bytes_to_notes_eq_map]
  exact List.getElem?_map ..

theorem scale_entry_lt_twelve (s : String) (l : List ℕ) (j : ℕ)
    (h : SCALES.lookup s = some l) : l.getD j 0 < 12 := by
  have hv : l ∈ SCALES.map Prod.snd := lookup_mem_values _ _ _ h
  have hall : ∀ x ∈ l, x < 12 := by
    simp only [SCALES, List.map, List.mem_cons, List.not_mem_nil, or_false] at hv
    rcases hv with h1 | h1 | h1 | h1 | h1 | h1 | h1 <;> subst h1 <;> decide
  by_cases hj : j < l.length
  · rw [List.getD_eq_getElem l 0 hj]
    exact hall _ (l.getElem_mem hj)
  · rw [List.getD_eq_default l 0 (Nat.le_of_not_lt hj)]
    norm_num

theorem noteTable_at (j : ℕ) (hj : j < 12) :
    (NOTES.lookup (noteNames.getD j "")).getD 0 = pitchClassFreq j := by
  interval_cases j <;> rfl

theorem pitchClassFreq_pos (j : ℕ) (hj : j < 12) : 0 < pitchClassFreq j := by
  interval_cases j <;> norm_num [pitchClassFreq]

theorem mapByte_fst (mode s : String) (l : List ℕ) (b : ℕ)
    (h : SCALES.lookup s = some l) :
    (mapByte mode s b).1 =
      pitchClassFreq (l.getD (b % l.length) 0) *
        (2 : ℚ) ^ (((3 + (b / l.length) % 6 : ℕ) : ℤ) - 4) := by
  simp only [mapByte, h, Option.getD_some]
  rw [noteTable_at _ (scale_entry_lt_twelve s l _ h)]

theorem mapByte_snd_melody (s : String) (b : ℕ) : (mapByte "melody" s b).2 = 1/2 := by
  simp [mapByte]

theorem mapByte_snd_rhythm (s : String) (b : ℕ) :
    (mapByte "rhythm" s b).2 = 1/4 + (b % 4 : ℕ) * (1/4 : ℚ) := by
  simp [mapByte]

theorem mapByte_snd_spectrum (s : String) (b : ℕ) : (mapByte "spectrum" s b).2 = 1/10 := by
  simp [mapByte]

theorem mapByte_snd_other (mode s : String) (b : ℕ)
    (hm : mode ∉ (["melody", "rhythm", "spectrum"] : List String)) :
    (mapByte mode s b).2 = 1/2 := by
  have h1 : ¬ mode = "melody" := fun h => hm (by simp [h])
  have h2 : ¬ mode = "rhythm" := fun h => hm (by simp [h])
  have h3 : ¬ mode = "spectrum" := fun h => hm (by simp [h])
  simp [mapByte, h1, h2, h3]

/-- C1: for every byte `b` and valid scale, the frequency produced by
`map_bytes_to_notes` is the pitch-class-table entry at the scale entry
of index `b mod len(scale)`, scaled by `2^(octave - 4)` with
`octave = 3 + (b div len(scale)) mod 6`. -/
theorem map_bytes_freq_formula (mode s : String) (l data : List ℕ) (i b : ℕ)
    (hs : SCALES.lookup s = some l) (hb : data[i]? = some b) :
    ((map_bytes_to_notes mode s data)[i]?).map Prod.fst =
      some (pitchClassFreq (l.getD (b % l.length) 0) *
        (2 : ℚ) ^ (((3 + (b / l.length) % 6 : ℕ) : ℤ) - 4)) := by
  rw [map_bytes_to_notes_getElem?, hb]
  simp [mapByte_fst mode s l b hs]

theorem map_bytes_freq_formula_witness :
    ((map_bytes_to_notes "melody" "major" [5])[0]?).map Prod.fst =
      some (pitchClassFreq (([0, 2, 4, 5, 7, 9, 11] : List ℕ).getD (5 % 7) 0) *
        (2 : ℚ) ^ (((3 + (5 / 7) % 6 : ℕ) : ℤ) - 4)) :=
  map_bytes_freq_formula "melody" "major" [0, 2, 4, 5, 7, 9, 11] [5] 0 5 rfl rfl

/-- C3: `map_bytes_to_notes` returns exactly one (frequency, duration)
pair per input byte, in input order; the empty byte sequence yields the
empty note sequence. -/
theorem map_bytes_one_note_per_byte (mode s : String) (data : List ℕ) :
    map_bytes_to_notes mode s data = data.map (mapByte mode s) ∧
    (map_bytes_to_notes mode s data).length = data.length ∧
    map_bytes_to_notes mode s [] = ([] : List (ℚ × ℚ)) := by
  refine ⟨map_bytes_to_notes_eq_map mode s data, ?_, rfl⟩
  rw [map_bytes_to_notes_eq_map]
  exact List.length_map data _

/-- C4: for every byte and every valid scale and mode, the produced note
has strictly positive frequency and strictly positive duration. -/
theorem map_bytes_notes_pos (mode s : String) (l data : List ℕ) (p : ℚ × ℚ)
    (hs : SCALES.lookup s = some l) (hp : p ∈ map_bytes_to_notes mode s data) :
    0 < p.1 ∧ 0 < p.2 := by
  rw [map_bytes_to_notes_eq_map] at hp
  obtain ⟨b, hb, rfl⟩ := List.mem_map.mp hp
  constructor
  · rw [mapByte_fst mode s l b hs]
    exact mul_pos (pitchClassFreq_pos _ (scale_entry_lt_twelve s l _ hs))
      (zpow_pos (by norm_num) _)
  · simp only [mapByte]
    split_ifs <;> positivity

theorem map_bytes_notes_pos_witness :
    0 < (mapByte "melody" "blues" 7).1 ∧ 0 < (mapByte "melody" "blues" 7).2 :=
  map_bytes_notes_pos "melody" "blues" [0, 3, 5, 6, 7, 10] [7] (mapByte "melody" "blues" 7)
    rfl (by simp [map_bytes_to_notes])

/-- C5: in rhythm mode the produced duration is `0.25 + (b mod 4)·0.25`,
lies in `{0.25, 0.5, 0.75, 1.0}`, and depends on `b mod 4` alone. -/
theorem rhythm_duration_quantized (s : String) (data : List ℕ) (i b c : ℕ)
    (hb : data[i]? = some b) (hc : c % 4 = b % 4) :
    ((map_bytes_to_notes "rhythm" s data)[i]?).map Prod.snd =
      some (1/4 + (b % 4 : ℕ) * (1/4 : ℚ)) ∧
    (1/4 + (b % 4 : ℕ) * (1/4 : ℚ) = 1/4 ∨ 1/4 + (b % 4 : ℕ) * (1/4 : ℚ) = 1/2 ∨
      1/4 + (b % 4 : ℕ) * (1/4 : ℚ) = 3/4 ∨ 1/4 + (b % 4 : ℕ) * (1/4 : ℚ) = 1) ∧
    (mapByte "rhythm" s c).2 = (mapByte "rhythm" s b).2 := by
  refine ⟨?_, ?_, ?_⟩
  · rw [map_bytes_to_notes_getElem?, hb]
    simp [mapByte_snd_rhythm]
  · have h4 : b % 4 < 4 := Nat.mod_lt _ (by norm_num)
    set k := b % 4 with hk
    interval_cases k <;> norm_num
  · rw [mapByte_snd_rhythm, mapByte_snd_rhythm, hc]

theorem rhythm_duration_quantized_witness :
    ((map_bytes_to_notes "rhythm" "chromatic" [6])[0]?).map Prod.snd =
      some (1/4 + (6 % 4 : ℕ) * (1/4 : ℚ)) ∧
    (1/4 + (6 % 4 : ℕ) * (1/4 : ℚ) = 1/4 ∨ 1/4 + (6 % 4 : ℕ) * (1/4 : ℚ) = 1/2 ∨
      1/4 + (6 % 4 : ℕ) * (1/4 : ℚ) = 3/4 ∨ 1/4 + (6 % 4 : ℕ) * (1/4 : ℚ) = 1) ∧
    (mapByte "rhythm" "chromatic" 2).2 = (mapByte "rhythm" "chromatic" 6).2 :=
  rhythm_duration_quantized "chromatic" [6] 0 6 2 rfl rfl

/-- C6: constructing a `BinaryMapper` raises `ValueError` exactly for
scale names outside the seven known scales, and succeeds on every known
scale name. -/
theorem unknown_scale_value_error (mode s : String) :
    ((∃ e, BinaryMapper.init mode s = Except.error e) ↔ s ∉ scaleNames) ∧
    (s ∈ scaleNames → BinaryMapper.init mode s = Except.ok ⟨mode, s⟩) := by
  have hk : (SCALES.lookup s).isSome = true ↔ s ∈ scaleNames := by
    rw [lookup_isSome_iff SCALES s]
    simp [SCALES, scaleNames]
  by_cases hmem : s ∈ scaleNames
  · have hok : BinaryMapper.init mode s = Except.ok ⟨mode, s⟩ := by
      unfold BinaryMapper.init
      rw [if_pos (hk.mpr hmem)]
    simp [hok, hmem]
  · have hns : ¬ (SCALES.lookup s).isSome = true := fun hcon => hmem (hk.mp hcon)
    have herr : BinaryMapper.init mode s = Except.error ("Unknown scale: " ++ s) := by
      unfold BinaryMapper.init
      rw [if_neg hns]
    simp [herr, hmem]

theorem unknown_scale_value_error_witness :
    (∃ e, BinaryMapper.init "melody" "jazz" = Except.error e) ∧
    BinaryMapper.init "melody" "chromatic" = Except.ok ⟨"melody", "chromatic"⟩ :=
  ⟨(unknown_scale_value_error "melody" "jazz").1.mpr (by decide),
    (unknown_scale_value_error "melody" "chromatic").2 (by decide)⟩

/-- C9: a mode string outside {melody, rhythm, spectrum} is never
validated: construction succeeds (for a known scale), and the produced
duration equals melody mode's constant 0.5 s. -/
theorem mode_not_validated (mode s : String) (b : ℕ)
    (hm : mode ∉ (["melody", "rhythm", "spectrum"] : List String))
    (hs : (SCALES.lookup s).isSome = true) :
    BinaryMapper.init mode s = Except.ok ⟨mode, s⟩ ∧
    (mapByte mode s b).2 = (mapByte "melody" s b).2 ∧
    (mapByte mode s b).2 = 1/2 := by
  refine ⟨?_, ?_, mapByte_snd_other mode s b hm⟩
  · unfold BinaryMapper.init
    rw [if_pos hs]
  · rw [mapByte_snd_other mode s b hm, mapByte_snd_melody]

theorem pytruncQ_of_nonneg (q : ℚ) (h : 0 ≤ q) : pytruncQ q = ⌊q⌋ := by
  simp [pytruncQ, h]

theorem noteSegment_length (f d : ℚ) (rate : ℕ) :
    (noteSegment f d rate).length = (pytruncQ (d * rate)).toNat := by
  simp only [noteSegment]
  rw [List.length_map, List.length_range]

theorem generate_waveform_length (notes : List (ℚ × ℚ)) (rate : ℕ)
    (h : ∀ p ∈ notes, 0 ≤ p.2) :
    (generate_waveform notes rate).length =
      (notes.map fun p => (⌊p.2 * (rate : ℚ)⌋).toNat).sum := by
  induction notes with
  | nil => simp [generate_waveform]
  | cons hd tl ih =>
    obtain ⟨f, d⟩ := hd
    have hd0 : 0 ≤ d := h (f, d) (List.mem_cons_self (f, d) tl)
    simp only [generate_waveform, List.length_append, noteSegment_length,
      List.map_cons, List.sum_cons]
    rw [pytruncQ_of_nonneg _ (by positivity),
      ih (fun p hp => h p (List.mem_cons_of_mem _ hp))]

/-- C2: the waveform length is the sum over the notes of
`floor(duration × rate)`, truncated per note and not globally; in
particular `[(440, 0.5), (880, 0.5)]` at 44100 Hz yields exactly 44100
samples. -/
theorem waveform_length_is_per_note_sum (notes : List (ℚ × ℚ)) (rate : ℕ)
    (h : ∀ p ∈ notes, 0 ≤ p.2) :
    (generate_waveform notes rate).length =
      (notes.map fun p => (⌊p.2 * (rate : ℚ)⌋).toNat).sum ∧
    (generate_waveform [(440, 1/2), (880, 1/2)] 44100).length = 44100 := by
  refine ⟨generate_waveform_length notes rate h, ?_⟩
  rw [generate_waveform_length _ 44100 ?pos]
  case pos =>
    intro p hp
    simp only [List.mem_cons, List.not_mem_nil, or_false] at hp
    rcases hp with rfl | rfl <;> norm_num
  simp only [List.map_cons, List.map_nil, List.sum_cons, List.sum_nil]
  norm_num
  decide

theorem waveform_length_is_per_note_sum_witness :
    (generate_waveform [(440, 1/2), (880, 1/2)] 44100).length = 44100 :=
  (waveform_length_is_per_note_sum [] 44100 (by simp)).2

theorem notes_to_midi_pair (notes : List (ℚ × ℚ)) :
    ∀ (i : ℕ) (f d : ℚ), notes[i]? = some (f, d) →
      (notes_to_midi notes)[2 * i]? =
        some ⟨"note_on", freq_to_midi_note f, 64, 0⟩ ∧
      (notes_to_midi notes)[2 * i + 1]? =
        some ⟨"note_off", freq_to_midi_note f, 64, pytruncQ (d * 480)⟩ := by
  induction notes with
  | nil => intro i f d h; simp at h
  | cons hd tl ih =>
    obtain ⟨g, e⟩ := hd
    intro i f d h
    have hexp : notes_to_midi ((g, e) :: tl) =
        ⟨"note_on", freq_to_midi_note g, 64, 0⟩ ::
        ⟨"note_off", freq_to_midi_note g, 64, pytruncQ (e * 480)⟩ ::
        notes_to_midi tl := rfl
    cases i with
    | zero =>
      rw [List.getElem?_cons_zero] at h
      simp only [Option.some.injEq, Prod.mk.injEq] at h
      obtain ⟨rfl, rfl⟩ := h
      simp [hexp]
    | succ n =>
      rw [List.getElem?_cons_succ] at h
      obtain ⟨h1, h2⟩ := ih n f d h
      refine ⟨?_, ?_⟩
      · rw [hexp, show 2 * (n + 1) = 2 * n + 1 + 1 from by ring,
          List.getElem?_cons_succ, List.getElem?_cons_succ]
        exact h1
      · rw [hexp, show 2 * (n + 1) + 1 = 2 * n + 1 + 1 + 1 from by ring,
          List.getElem?_cons_succ, List.getElem?_cons_succ]
        exact h2

theorem freq_to_midi_note_eq_floor (f : ℚ) (hf : 110 ≤ f) :
    freq_to_midi_note f = ⌊69 + 12 * Real.logb 2 ((f : ℝ) / 440)⌋ := by
  have hf110 : (110 : ℝ) ≤ (f : ℝ) := by exact_mod_cast hf
  have hpos : (0 : ℝ) < (f : ℝ) / 440 := by positivity
  have h1 : (2 : ℝ) ^ ((-2 : ℝ)) ≤ (f : ℝ) / 440 := by
    rw [show ((-2 : ℝ)) = ((-2 : ℤ) : ℝ) from by norm_num, Real.rpow_intCast]
    rw [show ((2 : ℝ) ^ ((-2 : ℤ))) = 1/4 from by norm_num]
    rw [le_div_iff₀ (by norm_num)]
    linarith
  have h2 : (-2 : ℝ) ≤ Real.logb 2 ((f : ℝ) / 440) :=
    (Real.le_logb_iff_rpow_le one_lt_two hpos).mpr h1
  have h3 : 0 ≤ 69 + 12 * Real.logb 2 ((f : ℝ) / 440) := by linarith
  simp [freq_to_midi_note, pytruncR, h3]

/-- C7 (amended): for every note at index `i` with frequency `f ≥ 110 Hz`
(every mapper-produced frequency qualifies: the lowest is C3 ≈ 130.8 Hz),
the MIDI exporter emits a note_on/note_off pair at output positions
`2i, 2i+1` whose note number is `69 + 12·log2(f/440)` rounded DOWN
(Python `int()` truncation), not rounded to nearest. -/
theorem midi_note_floor_formula (notes : List (ℚ × ℚ)) (i : ℕ) (f d : ℚ)
    (h : notes[i]? = some (f, d)) (hf : 110 ≤ f) :
    (notes_to_midi notes)[2 * i]? =
      some ⟨"note_on", ⌊69 + 12 * Real.logb 2 ((f : ℝ) / 440)⌋, 64, 0⟩ ∧
    (notes_to_midi notes)[2 * i + 1]? =
      some ⟨"note_off", ⌊69 + 12 * Real.logb 2 ((f : ℝ) / 440)⌋, 64,
        pytruncQ (d * 480)⟩ := by
  have hpair := notes_to_midi_pair notes i f d h
  rwa [freq_to_midi_note_eq_floor f hf] at hpair

theorem midi_note_floor_formula_witness :
    (notes_to_midi [(440, 1/2)])[2 * 0]? =
      some ⟨"note_on", ⌊69 + 12 * Real.logb 2 (((440 : ℚ) : ℝ) / 440)⌋, 64, 0⟩ ∧
    (notes_to_midi [(440, 1/2)])[2 * 0 + 1]? =
      some ⟨"note_off", ⌊69 + 12 * Real.logb 2 (((440 : ℚ) : ℝ) / 440)⌋, 64,
        pytruncQ ((1/2 : ℚ) * 480)⟩ :=
  midi_note_floor_formula [(440, 1/2)] 0 440 (1/2) rfl (by norm_num)

theorem logb_ratio_lb : (11/24 : ℝ) ≤ Real.logb 2 (31/22) := by
  rw [Real.le_logb_iff_rpow_le one_lt_two (by norm_num : (0:ℝ) < 31/22)]
  have h24 : ((2:ℝ) ^ ((11/24 : ℝ))) ^ (24:ℕ) = 2 ^ (11:ℕ) := by
    rw [← Real.rpow_natCast ((2:ℝ) ^ ((11/24 : ℝ))) 24,
      ← Real.rpow_mul (by norm_num : (0:ℝ) ≤ 2)]
    norm_num
  refine le_of_pow_le_pow_left₀ (by norm_num : (24:ℕ) ≠ 0) (by norm_num) ?_
  rw [h24]
  norm_num

theorem logb_ratio_ub : Real.logb 2 (31/22) < 1/2 := by
  rw [Real.logb_lt_iff_lt_rpow one_lt_two (by norm_num : (0:ℝ) < 31/22)]
  have h2 : ((2:ℝ) ^ ((1/2 : ℝ))) ^ (2:ℕ) = 2 := by
    rw [← Real.rpow_natCast ((2:ℝ) ^ ((1/2 : ℝ))) 2,
      ← Real.rpow_mul (by norm_num : (0:ℝ) ≤ 2)]
    norm_num
  apply lt_of_pow_lt_pow_left₀ 2 (by positivity)
  rw [h2]
  norm_num

/-- C7 (counterexample): for the input note (620 Hz, 0.5 s) the exporter
emits MIDI note number 74 (truncation of ≈ 74.94), while the nearest MIDI
note number per the spec's formula is 75. -/
theorem midi_not_nearest_counterexample :
    (notes_to_midi [(620, 1/2)]).map MidiMessage.note = [74, 74] ∧
    specNearestMidiNote 620 = 75 := by
  have hq : ((620 : ℚ) : ℝ) / 440 = 31/22 := by norm_num
  have hlb := logb_ratio_lb
  have hub := logb_ratio_ub
  have hx0 : (0 : ℝ) ≤ 69 + 12 * Real.logb 2 (31/22) := by linarith
  have hfloor : ⌊(69 : ℝ) + 12 * Real.logb 2 (31/22)⌋ = 74 := by
    rw [Int.floor_eq_iff]
    constructor <;> push_cast <;> linarith
  have hround : round ((69 : ℝ) + 12 * Real.logb 2 (31/22)) = 75 := by
    rw [round_eq, Int.floor_eq_iff]
    constructor <;> push_cast <;> linarith
  have hnote : freq_to_midi_note 620 = 74 := by
    unfold freq_to_midi_note pytruncR
    rw [hq, if_pos hx0, hfloor]
  constructor
  · have hexp : notes_to_midi [((620 : ℚ), (1/2 : ℚ))] =
        [⟨"note_on", freq_to_midi_note 620, 64, 0⟩,
         ⟨"note_off", freq_to_midi_note 620, 64, pytruncQ ((1/2 : ℚ) * 480)⟩] := rfl
    rw [hexp]
    simp [hnote]
  · unfold specNearestMidiNote
    rw [hq, hround]

theorem mode_not_validated_witness :
    BinaryMapper.init "jazz" "chromatic" = Except.ok ⟨"jazz", "chromatic"⟩ ∧
    (mapByte "jazz" "chromatic" 0).2 = (mapByte "melody" "chromatic" 0).2 ∧
    (mapByte "jazz" "chromatic" 0).2 = 1/2 :=
  mode_not_validated "jazz" "chromatic" 0 (by decide) (by decide)

/-- C8: an empty input file yields a record with status "error" and the
message "File is empty"; the batch keeps one independent record per file
(so it continues past the failure), and a read failure is likewise caught
and recorded rather than aborting the batch. -/
theorem batch_empty_file_error (fs : String → Except String (List ℕ))
    (expo : String → String → List (ℚ × ℚ) → Except String Unit)
    (mode scale outdir fmt : String) (inputs : List String) (i : ℕ) (f : String)
    (hi : inputs[i]? = some f) (hempty : fs f = Except.ok []) :
    (process_batch fs expo mode scale inputs outdir fmt)[i]? =
      some ⟨f, none, "error", some "File is empty"⟩ ∧
    (process_batch fs expo mode scale inputs outdir fmt).length = inputs.length ∧
    (∀ j : ℕ, (process_batch fs expo mode scale inputs outdir fmt)[j]? =
      inputs[j]?.map (processOne fs expo mode scale outdir fmt)) ∧
    (∀ g e, fs g = Except.error e →
      processOne fs expo mode scale outdir fmt g = ⟨g, none, "error", some e⟩) := by
  refine ⟨?_, by simp [process_batch], fun j => List.getElem?_map .., ?_⟩
  · show (inputs.map (processOne fs expo mode scale outdir fmt))[i]? = _
    rw [List.getElem?_map, hi]
    simp [processOne, hempty]
  · intro g e hg
    simp [processOne, hg]

theorem batch_empty_file_error_witness :
    (process_batch (fun s => if s = "empty.bin" then Except.ok [] else Except.ok [1])
      (fun _ _ _ => Except.ok ()) "melody" "chromatic" ["empty.bin", "b.bin"]
      "out" "wav")[0]? =
      some ⟨"empty.bin", none, "error", some "File is empty"⟩ :=
  (batch_empty_file_error (fun s => if s = "empty.bin" then Except.ok [] else Except.ok [1])
    (fun _ _ _ => Except.ok ()) "melody" "chromatic" "out" "wav" ["empty.bin", "b.bin"]
    0 "empty.bin" rfl (by simp)).1

/-- C10: the batch driver returns one record per input file, in order;
every record's status is "success" or "error" (never the initial
"pending"), and the output field is set exactly on success. -/
theorem batch_result_invariants (fs : String → Except String (List ℕ))
    (expo : String → String → List (ℚ × ℚ) → Except String Unit)
    (mode scale : String) (inputs : List String) (outdir fmt : String) :
    (process_batch fs expo mode scale inputs outdir fmt).length = inputs.length ∧
    (∀ j : ℕ, (process_batch fs expo mode scale inputs outdir fmt)[j]? =
      inputs[j]?.map (processOne fs expo mode scale outdir fmt)) ∧
    ∀ r ∈ process_batch fs expo mode scale inputs outdir fmt,
      (r.status = "success" ∨ r.status = "error") ∧
      (r.output.isSome = true ↔ r.status = "success") := by
  refine ⟨by simp [process_batch], fun j => List.getElem?_map .., ?_⟩
  intro r hr
  simp only [process_batch] at hr
  obtain ⟨x, hx, rfl⟩ := List.mem_map.mp hr
  simp only [processOne]
  cases hfs : fs x with
  | error e => simp
  | ok data =>
    by_cases hdat : data.isEmpty
    · simp [hdat]
    · cases hexp : expo fmt (outdir ++ "/" ++ stem x ++ "_binarysymphony." ++ fmt)
          (map_bytes_to_notes mode scale data) with
      | error e => simp [hdat, hexp]
      | ok u => simp [hdat, hexp]

theorem batch_result_invariants_witness :
    (process_batch (fun _ => Except.ok [1]) (fun _ _ _ => Except.ok ())
      "melody" "chromatic" ["x.bin"] "out" "wav").length = 1 :=
  (batch_result_invariants (fun _ => Except.ok [1]) (fun _ _ _ => Except.ok ())
    "melody" "chromatic" ["x.bin"] "out" "wav").1

end BinarySymphony
